import Mathlib

/-!
Verification of the Zenith download manager frontend and its download core.

The download coordinator, the transport backends and the daemon supervisor
live behind a command boundary; the frontend components
(`DownloadManager.jsx`, `DownloadHistory.jsx`, `Bypass.jsx`) and the
history schema (`schema.sql`) are embedded here directly.  Parts of the
core that sit behind the command boundary are modelled from the
specification and are marked as such in their doc comments.
-/

namespace Zenith

/-- A progress-event payload as consumed by `DownloadManager.jsx`:
`download_id`, `file_name`, `status`, `progress`, byte counters, speeds,
`eta`, peer and seed counts.  The fractional `progress` field is modelled
as a rational number. -/
structure DownloadProgress where
  download_id : String
  file_name : Option String
  status : String
  progress : Rat
  downloaded_size : Nat
  total_size : Nat
  download_speed : Nat
  upload_speed : Nat
  eta : Option Nat
  num_peers : Nat
  num_seeds : Nat
deriving DecidableEq, Repr

/-- The list update performed by `updateDownloadProgress` in
`DownloadManager.jsx` (lines 131-154): `findIndex` on `download_id`;
if found the entry is replaced in place, otherwise the payload is appended
only when its status is not `Completed` and its progress is below `1.0`. -/
def updateDownloadProgress (prev : List DownloadProgress)
    (p : DownloadProgress) : List DownloadProgress :=
  match prev.findIdx? (fun d => d.download_id == p.download_id) with
  | some i => prev.set i p
  | none =>
    if p.status ≠ "Completed" ∧ p.progress < 1 then prev ++ [p] else prev

/-- First-match recursion computing the same update; used in proofs. -/
def updateAux (prev : List DownloadProgress)
    (p : DownloadProgress) : List DownloadProgress :=
  match prev with
  | [] => if p.status ≠ "Completed" ∧ p.progress < 1 then [p] else []
  | d :: rest =>
    if d.download_id = p.download_id then p :: rest
    else d :: updateAux rest p

theorem updateDownloadProgress_eq_updateAux (prev : List DownloadProgress)
    (p : DownloadProgress) :
    updateDownloadProgress prev p = updateAux prev p := by
  induction prev with
  | nil => rfl
  | cons d rest ih =>
    by_cases h : d.download_id = p.download_id
    · simp [updateDownloadProgress, updateAux, List.findIdx?_cons, h]
    · have hb : (d.download_id == p.download_id) = false := by
        simp [h]
      simp only [updateAux, if_neg h]
      simp only [updateDownloadProgress, List.findIdx?_cons, hb, cond_false]
      rw [← ih]
      simp only [updateDownloadProgress]
      cases hfind : rest.findIdx? (fun x => x.download_id == p.download_id) with
      | none => simp [hfind]; split <;> rfl
      | some i => simp [hfind, List.set]

/-- The ids of the entries of an active-downloads list. -/
def downloadIds (l : List DownloadProgress) : List String :=
  l.map (fun d => d.download_id)

theorem mem_downloadIds_updateAux (prev : List DownloadProgress)
    (p : DownloadProgress) (i : String) (h : i ∈ downloadIds prev) :
    i ∈ downloadIds (updateAux prev p) := by
  induction prev with
  | nil => simp [downloadIds] at h
  | cons d rest ih =>
    simp only [downloadIds, List.map_cons, List.mem_cons] at h
    by_cases hd : d.download_id = p.download_id
    · rcases h with h | h
      · simp [updateAux, hd, downloadIds, h]
      · simp only [updateAux, if_pos hd, downloadIds, List.map_cons,
          List.mem_cons]
        right
        simpa [downloadIds] using h
    · rcases h with h | h
      · simp [updateAux, hd, downloadIds, h]
      · simp only [updateAux, if_neg hd, downloadIds, List.map_cons,
          List.mem_cons]
        right
        simpa [downloadIds] using ih (by simpa [downloadIds] using h)

theorem downloadIds_updateAux_of_mem (prev : List DownloadProgress)
    (p : DownloadProgress) (h : p.download_id ∈ downloadIds prev) :
    downloadIds (updateAux prev p) = downloadIds prev := by
  induction prev with
  | nil => simp [downloadIds] at h
  | cons d rest ih =>
    by_cases hd : d.download_id = p.download_id
    · simp [updateAux, hd, downloadIds]
    · have hmem : p.download_id ∈ downloadIds rest := by
        simp only [downloadIds, List.map_cons, List.mem_cons] at h
        rcases h with h | h
        · exact absurd h.symm hd
        · simpa [downloadIds] using h
      simp only [updateAux, if_neg hd, downloadIds, List.map_cons]
      have := ih hmem
      simp only [downloadIds] at this
      rw [this]

theorem updateAux_of_not_mem (prev : List DownloadProgress)
    (p : DownloadProgress) (h : p.download_id ∉ downloadIds prev) :
    updateAux prev p =
      if p.status ≠ "Completed" ∧ p.progress < 1 then prev ++ [p] else prev := by
  induction prev with
  | nil => simp [updateAux]
  | cons d rest ih =>
    have hd : d.download_id ≠ p.download_id := by
      intro hk
      exact h (by simp [downloadIds, hk])
    have hrest : p.download_id ∉ downloadIds rest := by
      intro hk
      exact h (by simp [downloadIds] at hk ⊢; right; exact hk)
    simp only [updateAux, if_neg hd, ih hrest]
    split <;> simp

theorem findIdx?_eq_some_of_mem (prev : List DownloadProgress)
    (p : DownloadProgress) (h : p.download_id ∈ downloadIds prev) :
    ∃ i, prev.findIdx? (fun d => d.download_id == p.download_id) = some i := by
  induction prev with
  | nil => simp [downloadIds] at h
  | cons d rest ih =>
    by_cases hd : d.download_id = p.download_id
    · exact ⟨0, by simp [List.findIdx?_cons, hd]⟩
    · have hmem : p.download_id ∈ downloadIds rest := by
        simp only [downloadIds, List.map_cons, List.mem_cons] at h
        rcases h with h | h
        · exact absurd h.symm hd
        · simpa [downloadIds] using h
      obtain ⟨i, hi⟩ := ih hmem
      exact ⟨i + 1, by simp [List.findIdx?_cons, hd, hi]⟩

/-- C9: the active-downloads list never holds two entries with the same
`download_id`: an event whose id is present replaces that entry in place
(at the index `findIndex` returns), and one whose id is absent appends at
most one new entry, and only when its status is not `Completed` and its
progress is below `1.0`. -/
theorem updateDownloadProgress_unique_ids (prev : List DownloadProgress)
    (p : DownloadProgress) (hnodup : (downloadIds prev).Nodup) :
    (downloadIds (updateDownloadProgress prev p)).Nodup ∧
    (p.download_id ∈ downloadIds prev →
      ∃ i, prev.findIdx? (fun d => d.download_id == p.download_id) = some i ∧
        updateDownloadProgress prev p = prev.set i p) ∧
    (p.download_id ∉ downloadIds prev →
      updateDownloadProgress prev p =
        if p.status ≠ "Completed" ∧ p.progress < 1 then prev ++ [p] else prev) := by
  refine ⟨?_, ?_, ?_⟩
  · rw [updateDownloadProgress_eq_updateAux]
    by_cases hmem : p.download_id ∈ downloadIds prev
    · rw [downloadIds_updateAux_of_mem prev p hmem]
      exact hnodup
    · rw [updateAux_of_not_mem prev p hmem]
      split
      · have hids : downloadIds (prev ++ [p]) =
            downloadIds prev ++ [p.download_id] := by
          simp [downloadIds]
        rw [hids, List.nodup_append]
        refine ⟨hnodup, List.nodup_singleton _, ?_⟩
        intro a ha hb
        simp only [List.mem_singleton] at hb
        subst hb
        exact hmem ha
      · exact hnodup
  · intro hmem
    obtain ⟨i, hi⟩ := findIdx?_eq_some_of_mem prev p hmem
    exact ⟨i, hi, by simp [updateDownloadProgress, hi]⟩
  · intro hmem
    rw [updateDownloadProgress_eq_updateAux]
    exact updateAux_of_not_mem prev p hmem

/-- A concrete active (non-terminal) progress payload. -/
def sampleActive : DownloadProgress :=
  { download_id := "d1", file_name := some "file.zip", status := "Active",
    progress := 0, downloaded_size := 0, total_size := 100,
    download_speed := 0, upload_speed := 0, eta := none,
    num_peers := 0, num_seeds := 0 }

/-- The same download reported as completed. -/
def sampleCompleted : DownloadProgress :=
  { sampleActive with
    status := "Completed"
    progress := 1
    downloaded_size := 100 }

/-- A second, distinct download. -/
def sampleOther : DownloadProgress :=
  { sampleActive with
    download_id := "d2"
    file_name := some "other.bin" }

theorem updateDownloadProgress_unique_ids_witness :
    (downloadIds [sampleActive]).Nodup ∧
    ((downloadIds (updateDownloadProgress [sampleActive] sampleOther)).Nodup ∧
    (sampleOther.download_id ∈ downloadIds [sampleActive] →
      ∃ i, [sampleActive].findIdx?
            (fun d => d.download_id == sampleOther.download_id) = some i ∧
        updateDownloadProgress [sampleActive] sampleOther =
          [sampleActive].set i sampleOther) ∧
    (sampleOther.download_id ∉ downloadIds [sampleActive] →
      updateDownloadProgress [sampleActive] sampleOther =
        if sampleOther.status ≠ "Completed" ∧ sampleOther.progress < 1 then
          [sampleActive] ++ [sampleOther]
        else [sampleActive])) :=
  ⟨by decide, updateDownloadProgress_unique_ids [sampleActive] sampleOther
    (by decide)⟩

/-- True when `updateDownloadProgress` in `DownloadManager.jsx` schedules
the 3-second auto-removal for a payload: status `Completed` or progress at
least `1.0` (line 136). -/
def schedulesRemoval (p : DownloadProgress) : Bool :=
  p.status == "Completed" || decide (1 ≤ p.progress)

/-- Events acting on the active-downloads list of `DownloadManager.jsx`:
arrival of a progress event, the firing of a previously scheduled 3-second
removal timer, a `loadDownloads` refresh (run every 5 seconds and after
start/pause/resume/cancel) carrying the backend's `get_active_downloads`
response, the `clearCompletedDownloads` button, and
`shutdownDownloadManager`. -/
inductive UiEvent where
  | progressEv (p : DownloadProgress)
  | fireTimer (id : String)
  | refresh (resp : List DownloadProgress)
  | clearCompleted
  | shutdown
deriving DecidableEq, Repr

/-- The component state: the `downloads` list plus the ids whose removal
timers have been scheduled (by `setTimeout`) and have not fired yet. -/
structure UiState where
  downloads : List DownloadProgress
  pending : List String
deriving DecidableEq, Repr

/-- One step of the `DownloadManager.jsx` active-list behaviour:
`progressEv` runs `updateDownloadProgress` and, for a terminal-shaped
payload, schedules the removal timer (lines 131-154); `fireTimer`
executes the scheduled `setDownloads(current.filter(...))` callback
(lines 137-139); `refresh` is `loadDownloads` (lines 111-129), replacing
the list with the backend response filtered to status not `Completed`
and progress below `1.0`; `clearCompleted` keeps exactly the entries
with status not `Completed` and progress below `1.0` (lines 245-250);
`shutdown` clears the list (line 104). -/
def uiStep (s : UiState) (e : UiEvent) : UiState :=
  match e with
  | .progressEv p =>
    { downloads := updateDownloadProgress s.downloads p
      pending :=
        if schedulesRemoval p then p.download_id :: s.pending else s.pending }
  | .fireTimer id =>
    if id ∈ s.pending then
      { downloads := s.downloads.filter (fun d => d.download_id ≠ id)
        pending := s.pending.erase id }
    else s
  | .refresh resp =>
    { s with downloads :=
        resp.filter (fun d => d.status ≠ "Completed" ∧ d.progress < 1) }
  | .clearCompleted =>
    { s with downloads :=
        s.downloads.filter (fun d => d.status ≠ "Completed" ∧ d.progress < 1) }
  | .shutdown => { downloads := [], pending := s.pending }

/-- The component state after a sequence of events, starting from the
initial empty list. -/
def uiRun (evs : List UiEvent) : UiState :=
  evs.foldl uiStep { downloads := [], pending := [] }

/-- Whether the list currently holds an entry with the given id. -/
def hasEntry (s : UiState) (i : String) : Bool :=
  s.downloads.any (fun d => d.download_id == i)

/-- A terminal progress event for id `i` occurs somewhere in `evs`. -/
def scheduledBy (evs : List UiEvent) (i : String) : Prop :=
  ∃ p, UiEvent.progressEv p ∈ evs ∧ p.download_id = i ∧
    schedulesRemoval p = true

theorem pending_sound_aux (evs : List UiEvent) (s : UiState) (i : String)
    (h : i ∈ (evs.foldl uiStep s).pending) :
    i ∈ s.pending ∨ scheduledBy evs i := by
  induction evs generalizing s with
  | nil => exact Or.inl h
  | cons e rest ih =>
    rcases ih (uiStep s e) h with hstep | hsched
    · cases e with
      | progressEv p =>
        simp only [uiStep] at hstep
        by_cases hsch : schedulesRemoval p
        · rw [if_pos hsch] at hstep
          rcases List.mem_cons.mp hstep with hip | hip
          · exact Or.inr ⟨p, List.mem_cons_self _ _, hip.symm, hsch⟩
          · exact Or.inl hip
        · rw [if_neg hsch] at hstep
          exact Or.inl hstep
      | fireTimer j =>
        simp only [uiStep] at hstep
        by_cases hj : j ∈ s.pending
        · rw [if_pos hj] at hstep
          exact Or.inl (List.mem_of_mem_erase hstep)
        · rw [if_neg hj] at hstep
          exact Or.inl hstep
      | refresh resp => exact Or.inl hstep
      | clearCompleted => exact Or.inl hstep
      | shutdown => exact Or.inl hstep
    · obtain ⟨p, hp, hpid, hpterm⟩ := hsched
      exact Or.inr ⟨p, List.mem_cons_of_mem _ hp, hpid, hpterm⟩

/-- Any id with a live removal timer was scheduled by an earlier
terminal-shaped progress event. -/
theorem pending_sound (evs : List UiEvent) (i : String)
    (h : i ∈ (uiRun evs).pending) : scheduledBy evs i := by
  rcases pending_sound_aux evs { downloads := [], pending := [] } i h with
    habs | hok
  · simp at habs
  · exact hok

theorem hasEntry_updateDownloadProgress (l : List DownloadProgress)
    (p : DownloadProgress) (i : String)
    (h : l.any (fun d => d.download_id == i) = true) :
    (updateDownloadProgress l p).any (fun d => d.download_id == i) = true := by
  rw [List.any_eq_true] at h ⊢
  obtain ⟨d, hd, hdi⟩ := h
  have : i ∈ downloadIds (updateDownloadProgress l p) := by
    rw [updateDownloadProgress_eq_updateAux]
    refine mem_downloadIds_updateAux l p i ?_
    simp only [downloadIds, List.mem_map]
    exact ⟨d, hd, by simpa using hdi⟩
  simp only [downloadIds, List.mem_map] at this
  obtain ⟨d2, hd2, hd2i⟩ := this
  exact ⟨d2, hd2, by simpa using hd2i⟩

/-- C7 counterexample: an `Active` record for `"d1"` is replaced by a
`Completed` report, which arms the 3-second grace timer; when that timer
fires the record is reaped although the triggering event is neither the
explicit clear nor a shutdown — so terminal records are not reaped *only*
on explicit clear or process shutdown. -/
theorem terminal_reaped_without_clear_counterexample :
    (∃ d ∈ (uiRun [UiEvent.progressEv sampleActive,
        UiEvent.progressEv sampleCompleted]).downloads,
      d.download_id = "d1" ∧ d.status = "Completed") ∧
    hasEntry (uiRun [UiEvent.progressEv sampleActive,
        UiEvent.progressEv sampleCompleted,
        UiEvent.fireTimer "d1"]) "d1" = false ∧
    UiEvent.fireTimer "d1" ≠ UiEvent.clearCompleted ∧
    UiEvent.fireTimer "d1" ≠ UiEvent.shutdown := by
  decide

/-- C7 amended: an entry is removed from the active list only by (a) the
3-second grace timer armed by an earlier terminal-shaped progress event
for the same id, (b) the explicit clear, which removes only entries that
are themselves terminal-shaped, (c) shutdown, or (d) a `loadDownloads`
refresh whose backend snapshot holds no non-terminal entry with that id
(the refresh filter drops terminal-shaped entries and anything absent
from the snapshot).  In particular a progress event never removes an
entry. -/
theorem entry_removed_only_by_timer_clear_or_shutdown
    (evs : List UiEvent) (e : UiEvent) (i : String)
    (hbefore : hasEntry (uiRun evs) i = true)
    (hafter : hasEntry (uiRun (evs ++ [e])) i = false) :
    e = UiEvent.shutdown ∨
    (e = UiEvent.clearCompleted ∧
      ∀ d ∈ (uiRun evs).downloads, d.download_id = i →
        d.status = "Completed" ∨ 1 ≤ d.progress) ∨
    (e = UiEvent.fireTimer i ∧ scheduledBy evs i) ∨
    (∃ resp, e = UiEvent.refresh resp ∧
      ∀ d ∈ resp, d.download_id = i →
        d.status = "Completed" ∨ 1 ≤ d.progress) := by
  rw [uiRun, List.foldl_append] at hafter
  cases e with
  | progressEv p =>
    exfalso
    have := hasEntry_updateDownloadProgress (uiRun evs).downloads p i hbefore
    simp only [List.foldl_cons, List.foldl_nil] at hafter
    rw [show List.foldl uiStep { downloads := [], pending := [] } evs =
      uiRun evs from rfl] at hafter
    simp only [uiStep, hasEntry] at hafter
    rw [hafter] at this
    exact Bool.false_ne_true this
  | fireTimer j =>
    simp only [List.foldl_cons, List.foldl_nil] at hafter
    rw [show List.foldl uiStep { downloads := [], pending := [] } evs =
      uiRun evs from rfl] at hafter
    simp only [uiStep] at hafter
    by_cases hj : j ∈ (uiRun evs).pending
    · rw [if_pos hj] at hafter
      simp only [hasEntry, List.any_eq_true] at hbefore hafter
      obtain ⟨d, hd, hdi⟩ := hbefore
      by_cases hji : j = i
      · subst hji
        exact Or.inr (Or.inr (Or.inl ⟨rfl, pending_sound evs j hj⟩))
      · exfalso
        have hdi' : d.download_id = i := by simpa using hdi
        have hmemf : d ∈ List.filter (fun d => decide (d.download_id ≠ j))
            (uiRun evs).downloads := by
          refine List.mem_filter.mpr ⟨hd, ?_⟩
          simp only [decide_eq_true_eq]
          rw [hdi']
          exact fun hcontra => hji hcontra.symm
        have htrue : (List.filter (fun d => decide (d.download_id ≠ j))
            (uiRun evs).downloads).any (fun d => d.download_id == i) = true :=
          List.any_eq_true.mpr ⟨d, hmemf, hdi⟩
        rw [hafter] at htrue
        exact Bool.false_ne_true htrue
    · rw [if_neg hj] at hafter
      exact absurd hbefore (by simp [hasEntry] at hafter ⊢; exact hafter)
  | refresh resp =>
    simp only [List.foldl_cons, List.foldl_nil] at hafter
    rw [show List.foldl uiStep { downloads := [], pending := [] } evs =
      uiRun evs from rfl] at hafter
    simp only [uiStep, hasEntry] at hafter
    refine Or.inr (Or.inr (Or.inr ⟨resp, rfl, ?_⟩))
    intro d hd hdi
    by_contra hterm
    push_neg at hterm
    have hmemf : d ∈ List.filter
        (fun d => decide (d.status ≠ "Completed" ∧ d.progress < 1))
        resp := by
      refine List.mem_filter.mpr ⟨hd, ?_⟩
      simp only [decide_eq_true_eq]
      exact hterm
    have htrue : (List.filter
        (fun d => decide (d.status ≠ "Completed" ∧ d.progress < 1))
        resp).any (fun d => d.download_id == i) = true :=
      List.any_eq_true.mpr ⟨d, hmemf, by simpa using hdi⟩
    rw [hafter] at htrue
    exact Bool.false_ne_true htrue
  | clearCompleted =>
    simp only [List.foldl_cons, List.foldl_nil] at hafter
    rw [show List.foldl uiStep { downloads := [], pending := [] } evs =
      uiRun evs from rfl] at hafter
    simp only [uiStep, hasEntry] at hafter
    refine Or.inr (Or.inl ⟨rfl, ?_⟩)
    intro d hd hdi
    by_contra hterm
    push_neg at hterm
    have hmemf : d ∈ List.filter
        (fun d => decide (d.status ≠ "Completed" ∧ d.progress < 1))
        (uiRun evs).downloads := by
      refine List.mem_filter.mpr ⟨hd, ?_⟩
      simp only [decide_eq_true_eq]
      exact hterm
    have htrue : (List.filter
        (fun d => decide (d.status ≠ "Completed" ∧ d.progress < 1))
        (uiRun evs).downloads).any (fun d => d.download_id == i) = true :=
      List.any_eq_true.mpr ⟨d, hmemf, by simpa using hdi⟩
    rw [hafter] at htrue
    exact Bool.false_ne_true htrue
  | shutdown => exact Or.inl rfl

theorem entry_removed_only_by_timer_clear_or_shutdown_witness :
    (hasEntry (uiRun [UiEvent.progressEv sampleActive,
        UiEvent.progressEv sampleCompleted]) "d1" = true ∧
      hasEntry (uiRun ([UiEvent.progressEv sampleActive,
        UiEvent.progressEv sampleCompleted] ++ [UiEvent.fireTimer "d1"]))
        "d1" = false) ∧
    (UiEvent.fireTimer "d1" = UiEvent.shutdown ∨
    (UiEvent.fireTimer "d1" = UiEvent.clearCompleted ∧
      ∀ d ∈ (uiRun [UiEvent.progressEv sampleActive,
          UiEvent.progressEv sampleCompleted]).downloads,
        d.download_id = "d1" →
          d.status = "Completed" ∨ 1 ≤ d.progress) ∨
    (UiEvent.fireTimer "d1" = UiEvent.fireTimer "d1" ∧
      scheduledBy [UiEvent.progressEv sampleActive,
        UiEvent.progressEv sampleCompleted] "d1") ∨
    (∃ resp, UiEvent.fireTimer "d1" = UiEvent.refresh resp ∧
      ∀ d ∈ resp, d.download_id = "d1" →
        d.status = "Completed" ∨ 1 ≤ d.progress)) :=
  ⟨⟨by decide, by decide⟩,
    entry_removed_only_by_timer_clear_or_shutdown
      [UiEvent.progressEv sampleActive, UiEvent.progressEv sampleCompleted]
      (UiEvent.fireTimer "d1") "d1" (by decide) (by decide)⟩

/-- The backend manager state visible through the command boundary:
whether the daemon is ready, and how many daemon spawns have happened. -/
structure ManagerState where
  ready : Bool
  spawnCount : Nat
deriving DecidableEq, Repr

/-- Modelled from the spec: the `initialize_download_manager` command
(behind the command boundary, not under `src/`) spawns the daemon and
leaves the manager ready. -/
def initialize_download_manager (m : ManagerState) : ManagerState :=
  { ready := true, spawnCount := m.spawnCount + 1 }

/-- Modelled from the spec: `is_download_manager_ready` is a non-blocking
ping reporting readiness without changing any state. -/
def is_download_manager_ready (m : ManagerState) : Bool :=
  m.ready

/-- The `initializeDownloadManager` handler of `DownloadManager.jsx`
(lines 69-97): it first invokes `is_download_manager_ready`; when that
reports ready it returns without invoking `initialize_download_manager`.
The result is the backend state after the call paired with the list of
backend commands invoked. -/
def initializeDownloadManager (m : ManagerState) :
    ManagerState × List String :=
  if is_download_manager_ready m then
    (m, ["is_download_manager_ready"])
  else
    (initialize_download_manager m,
      ["is_download_manager_ready", "initialize_download_manager"])

/-- C8: when the readiness check reports the manager already ready, a
repeated initialization call performs no second spawn (the spawn command
is not among the commands invoked, and the spawn count is unchanged) and
leaves the manager state unchanged. -/
theorem initialize_idempotent_when_ready (m : ManagerState)
    (h : is_download_manager_ready m = true) :
    (initializeDownloadManager m).1 = m ∧
    (initializeDownloadManager m).1.spawnCount = m.spawnCount ∧
    "initialize_download_manager" ∉ (initializeDownloadManager m).2 := by
  refine ⟨?_, ?_, ?_⟩ <;> simp [initializeDownloadManager, h]

theorem initialize_idempotent_when_ready_witness :
    (initializeDownloadManager { ready := true, spawnCount := 1 }).1 =
        { ready := true, spawnCount := 1 } ∧
    (initializeDownloadManager { ready := true, spawnCount := 1 }).1.spawnCount
        = 1 ∧
    "initialize_download_manager" ∉
      (initializeDownloadManager { ready := true, spawnCount := 1 }).2 :=
  initialize_idempotent_when_ready { ready := true, spawnCount := 1 }
    (by decide)

/-- A download-history row as laid out by the `download_history` table of
`src-tauri/src/database/schema.sql` (lines 100-138). -/
structure HistoryEntry where
  id : Nat
  download_id : String
  download_type : String
  source_type : String
  url : String
  file_name : Option String
  file_size : Nat
  save_path : String
  app_id : Option String
  game_name : Option String
  final_progress : Rat
  download_speed_avg : Nat
  total_time_seconds : Nat
  status : String
  error_message : Option String
  started_at : Nat
  completed_at : Option Nat
  is_redownloadable : Bool
deriving DecidableEq, Repr

/-- Modelled from the spec: the `get_download_history` command (behind the
command boundary, not under `src/`) returns the rows in the SQL
`LIMIT`/`OFFSET` window requested by the caller. -/
def get_download_history (table : List HistoryEntry)
    (limit offset : Nat) : List HistoryEntry :=
  (table.drop offset).take limit

/-- The page size constant of `DownloadHistory.jsx` (line 15). -/
def ITEMS_PER_PAGE : Nat := 20

/-- `loadHistory` in `DownloadHistory.jsx` (lines 29-53): requests
`ITEMS_PER_PAGE` entries at offset `currentPage * ITEMS_PER_PAGE`
(0 when resetting), replaces the list on reset and appends otherwise, and
sets `hasMore` exactly when the returned page has `ITEMS_PER_PAGE`
entries.  The result is the new history list and the new `hasMore`. -/
def loadHistory (table : List HistoryEntry) (reset : Bool)
    (currentPage : Nat) (prevHistory : List HistoryEntry) :
    List HistoryEntry × Bool :=
  let offset := if reset then 0 else currentPage * ITEMS_PER_PAGE
  let newHistory := get_download_history table ITEMS_PER_PAGE offset
  ((if reset then newHistory else prevHistory ++ newHistory),
    newHistory.length == ITEMS_PER_PAGE)

/-- Modelled from the spec: the `search_download_history` command filters
rows by a text predicate and returns at most `limit` matches. -/
def search_download_history (table : List HistoryEntry)
    (matchesTerm : HistoryEntry → Bool) (limit : Nat) : List HistoryEntry :=
  (table.filter matchesTerm).take limit

/-- `searchHistory` in `DownloadHistory.jsx` (lines 64-84): a non-empty
search requests at most 50 matches and always sets `hasMore` to false. -/
def searchHistory (table : List HistoryEntry)
    (matchesTerm : HistoryEntry → Bool) : List HistoryEntry × Bool :=
  (search_download_history table matchesTerm 50, false)

/-- C10: paging loads exactly the 20-entry window of the table at offset
`page * 20`, appended to the previous entries; `hasMore` is true exactly
when that window holds 20 entries; a text search returns at most 50
entries and always reports `hasMore = false`. -/
theorem history_paging_window (table prev : List HistoryEntry)
    (page : Nat) (matchesTerm : HistoryEntry → Bool) :
    (loadHistory table false page prev).1 =
      prev ++ (table.drop (page * 20)).take 20 ∧
    ((loadHistory table false page prev).2 = true ↔
      ((table.drop (page * 20)).take 20).length = 20) ∧
    (searchHistory table matchesTerm).1.length ≤ 50 ∧
    (searchHistory table matchesTerm).2 = false := by
  refine ⟨rfl, ?_, ?_, rfl⟩
  · simp [loadHistory, get_download_history, ITEMS_PER_PAGE]
  · simp only [searchHistory, search_download_history, List.length_take]
    exact min_le_left _ _

/-- The coordinator's view of a download at the moment it reaches a
terminal status, as handed to the history sink. -/
structure FinishedDownload where
  download_id : String
  url : String
  save_path : String
  status : String
  file_name : Option String
  downloaded_bytes : Nat
  final_progress : Rat
  avg_speed : Nat
  total_time_seconds : Nat
  started_at : Nat
  error_message : Option String
deriving DecidableEq, Repr

/-- The terminal statuses recorded in `download_history.status`
(`schema.sql` line 122): completed, cancelled or failed. -/
def isTerminalStatus (s : String) : Bool :=
  s == "completed" || s == "cancelled" || s == "failed"

/-- Modelled from the spec: the history sink (behind the command boundary,
not under `src/`) appends, for each download reaching a terminal status,
exactly one `download_history` row carrying the download's id, url,
destination, final status, byte count, duration and timestamp; a
non-terminal download writes nothing, and existing rows are never
touched. -/
def writeHistory (db : List HistoryEntry) (f : FinishedDownload)
    (rowId now : Nat) : List HistoryEntry :=
  if isTerminalStatus f.status then
    db ++ [{ id := rowId
             download_id := f.download_id
             download_type := "regular"
             source_type := "manual"
             url := f.url
             file_name := f.file_name
             file_size := f.downloaded_bytes
             save_path := f.save_path
             app_id := none
             game_name := none
             final_progress := f.final_progress
             download_speed_avg := f.avg_speed
             total_time_seconds := f.total_time_seconds
             status := f.status
             error_message := f.error_message
             started_at := f.started_at
             completed_at := some now
             is_redownloadable := true }]
  else db

/-- C6: a download reaching a terminal status produces exactly one history
record — the table grows by one row, all existing rows are untouched, and
the new row carries the download's id, url, destination, final status,
byte count, duration and timestamp; a non-terminal download writes no
row. -/
theorem history_sink_exactly_one_row (db : List HistoryEntry)
    (f : FinishedDownload) (rowId now : Nat)
    (h : isTerminalStatus f.status = true) :
    (writeHistory db f rowId now).length = db.length + 1 ∧
    (writeHistory db f rowId now).take db.length = db ∧
    (∃ r, writeHistory db f rowId now = db ++ [r] ∧
      r.download_id = f.download_id ∧ r.url = f.url ∧
      r.save_path = f.save_path ∧ r.status = f.status ∧
      r.file_size = f.downloaded_bytes ∧
      r.total_time_seconds = f.total_time_seconds ∧
      r.started_at = f.started_at ∧ r.completed_at = some now) ∧
    (∀ g : FinishedDownload, isTerminalStatus g.status = false →
      writeHistory db g rowId now = db) := by
  refine ⟨?_, ?_, ?_, ?_⟩
  · simp [writeHistory, h]
  · simp [writeHistory, h, List.take_left]
  · refine ⟨{ id := rowId
              download_id := f.download_id
              download_type := "regular"
              source_type := "manual"
              url := f.url
              file_name := f.file_name
              file_size := f.downloaded_bytes
              save_path := f.save_path
              app_id := none
              game_name := none
              final_progress := f.final_progress
              download_speed_avg := f.avg_speed
              total_time_seconds := f.total_time_seconds
              status := f.status
              error_message := f.error_message
              started_at := f.started_at
              completed_at := some now
              is_redownloadable := true },
      ?_, rfl, rfl, rfl, rfl, rfl, rfl, rfl, rfl⟩
    simp [writeHistory, h]
  · intro g hg
    simp [writeHistory, hg]

/-- A concrete finished download used to instantiate the sink theorem. -/
def sampleFinished : FinishedDownload :=
  { download_id := "d1", url := "https://host/file.zip",
    save_path := "C:\\Downloads", status := "completed",
    file_name := some "file.zip", downloaded_bytes := 100,
    final_progress := 1, avg_speed := 50, total_time_seconds := 2,
    started_at := 1000, error_message := none }

theorem history_sink_exactly_one_row_witness :
    (writeHistory [] sampleFinished 1 1002).length = 0 + 1 ∧
    (writeHistory [] sampleFinished 1 1002).take 0 = [] ∧
    (∃ r, writeHistory [] sampleFinished 1 1002 = [] ++ [r] ∧
      r.download_id = sampleFinished.download_id ∧
      r.url = sampleFinished.url ∧
      r.save_path = sampleFinished.save_path ∧
      r.status = sampleFinished.status ∧
      r.file_size = sampleFinished.downloaded_bytes ∧
      r.total_time_seconds = sampleFinished.total_time_seconds ∧
      r.started_at = sampleFinished.started_at ∧
      r.completed_at = some 1002) ∧
    (∀ g : FinishedDownload, isTerminalStatus g.status = false →
      writeHistory [] g 1 1002 = []) := by
  have h := history_sink_exactly_one_row [] sampleFinished 1 1002 (by decide)
  simpa using h

/-- The two transport kinds of the data model. -/
inductive TransportKind where
  | Http
  | Peer
deriving DecidableEq, Repr

/-- The submission-time error relevant to classification. -/
inductive SubmitError where
  | UnsupportedSchemeError
deriving DecidableEq, Repr

/-- Hexadecimal digit test for info-hash characters. -/
def isHexDigit (c : Char) : Bool :=
  c.isDigit || (('a' ≤ c) && (c ≤ 'f')) || (('A' ≤ c) && (c ≤ 'F'))

/-- A 40-character hexadecimal info-hash. -/
def isInfoHash40 (s : String) : Bool :=
  s.data.length == 40 && s.data.all isHexDigit

/-- Whether the character sequence of `s` begins with that of `p`. -/
def strStartsWith (s p : String) : Bool :=
  p.data.isPrefixOf s.data

/-- Modelled from the spec: the Coordinator's transport classification
(the `detect_url_type` command invoked by `DownloadManager.jsx` line 238,
behind the command boundary and not under `src/`): a `magnet:` URL or a
bare 40-character hex info-hash routes to Peer, `http://` or `https://`
routes to Http, anything else is `UnsupportedSchemeError`. -/
def detect_url_type (url : String) : Except SubmitError TransportKind :=
  if strStartsWith url "magnet:" || isInfoHash40 url then
    Except.ok TransportKind.Peer
  else if strStartsWith url "http://" || strStartsWith url "https://" then
    Except.ok TransportKind.Http
  else
    Except.error SubmitError.UnsupportedSchemeError

/-- Modelled from the spec: `submit()` (the `start_download` command
invoked by `DownloadManager.jsx` lines 156-189) accepts a request only
after classification succeeds; an unroutable URL makes the submission
fail with the classification error instead of being dropped. -/
def submitTransport (url : String) : Except SubmitError TransportKind :=
  match detect_url_type url with
  | Except.ok kind => Except.ok kind
  | Except.error e => Except.error e

/-- C1: classification is total and three-way — every URL is routed to
Peer (a `magnet:` URL or a 40-hex info-hash), routed to Http (`http://`
or `https://`), or rejected by `submit()` with
`UnsupportedSchemeError`; the three concrete URLs of the spec classify
accordingly. -/
theorem submit_classification_three_way (url : String) :
    (submitTransport url = Except.ok TransportKind.Peer ↔
      (strStartsWith url "magnet:" || isInfoHash40 url) = true) ∧
    (submitTransport url = Except.ok TransportKind.Http ↔
      ((strStartsWith url "magnet:" || isInfoHash40 url) = false ∧
       (strStartsWith url "http://" || strStartsWith url "https://")
         = true)) ∧
    (submitTransport url = Except.error SubmitError.UnsupportedSchemeError ↔
      ((strStartsWith url "magnet:" || isInfoHash40 url) = false ∧
       (strStartsWith url "http://" || strStartsWith url "https://")
         = false)) ∧
    submitTransport "magnet:?xt=urn:btih:0123456789abcdef0123456789abcdef01234567"
      = Except.ok TransportKind.Peer ∧
    submitTransport "https://host/file.zip" = Except.ok TransportKind.Http ∧
    submitTransport "ftp://host/file"
      = Except.error SubmitError.UnsupportedSchemeError := by
  refine ⟨?_, ?_, ?_, rfl, rfl, rfl⟩ <;>
    · simp only [submitTransport, detect_url_type]
      rcases hpeer : strStartsWith url "magnet:" || isInfoHash40 url with _ | _ <;>
        rcases hhttp : strStartsWith url "http://" || strStartsWith url "https://"
          with _ | _ <;> simp

/-- The download status state machine of the data model, including the
transient `Cancelling` mark of the concurrency model. -/
inductive DownloadStatus where
  | Pending
  | Active
  | Paused
  | Completed
  | Error
  | Cancelled
  | Seeding
  | Cancelling
deriving DecidableEq, Repr

/-- The operations the Coordinator applies to one record's status:
caller commands, the teardown acknowledgement after a cancel, and the
adoption of a backend-sampled status at a tick. -/
inductive RecordOp where
  | pauseOp
  | resumeOp
  | cancelOp
  | teardownDone
  | sampleOp (reported : DownloadStatus)
deriving DecidableEq, Repr

/-- Modelled from the spec: the Coordinator is the only status mutator.
`cancel()` marks a live record `Cancelling`, after which samples are
ignored; teardown completion makes it `Cancelled`, and a `Cancelled`
record never re-enters any other state.  `pause` is legal only from
`Active`, `resume` only from `Paused`; a sample adopts the
backend-reported status for live records. -/
def recordStep (st : DownloadStatus) (op : RecordOp) : DownloadStatus :=
  match st, op with
  | DownloadStatus.Cancelled, _ => DownloadStatus.Cancelled
  | DownloadStatus.Cancelling, RecordOp.teardownDone =>
      DownloadStatus.Cancelled
  | DownloadStatus.Cancelling, _ => DownloadStatus.Cancelling
  | DownloadStatus.Active, RecordOp.pauseOp => DownloadStatus.Paused
  | DownloadStatus.Paused, RecordOp.resumeOp => DownloadStatus.Active
  | DownloadStatus.Pending, RecordOp.cancelOp => DownloadStatus.Cancelling
  | DownloadStatus.Active, RecordOp.cancelOp => DownloadStatus.Cancelling
  | DownloadStatus.Paused, RecordOp.cancelOp => DownloadStatus.Cancelling
  | DownloadStatus.Pending, RecordOp.sampleOp r => r
  | DownloadStatus.Active, RecordOp.sampleOp r => r
  | DownloadStatus.Paused, RecordOp.sampleOp r => r
  | DownloadStatus.Seeding, RecordOp.sampleOp r => r
  | st, _ => st

/-- C2: cancellation is terminal — once a record's status is `Cancelled`,
no sequence of later operations (samples included) ever moves it to
`Active` or any other state. -/
theorem cancelled_is_terminal (ops : List RecordOp) :
    List.foldl recordStep DownloadStatus.Cancelled ops =
      DownloadStatus.Cancelled := by
  induction ops with
  | nil => rfl
  | cons op rest ih => simpa [recordStep] using ih

/-- Modelled from the spec: progress ratio = `downloaded / total`, clamped
to `[0,1]`; `total = 0` means the length is unknown and progress is
reported by byte count only (ratio 0). -/
def progressRatio (downloaded total : Nat) : Rat :=
  if total = 0 then 0
  else min 1 (max 0 ((downloaded : Rat) / (total : Rat)))

/-- A normalized backend sample: byte counters as the Coordinator
registers them. -/
structure SampleCounters where
  downloaded : Nat
  total : Nat
deriving DecidableEq, Repr

/-- Modelled from the spec: sample normalization — when the total is
known, the registered downloaded counter never exceeds it. -/
def mkSample (rawDownloaded total : Nat) : SampleCounters :=
  if total = 0 then { downloaded := rawDownloaded, total := 0 }
  else { downloaded := min rawDownloaded total, total := total }

/-- C3: at every sample the progress ratio lies within `[0,1]`, and
whenever the total size is known (nonzero) the registered downloaded
counter is at most the total. -/
theorem progress_ratio_clamped (rawDownloaded total : Nat) :
    0 ≤ progressRatio (mkSample rawDownloaded total).downloaded
        (mkSample rawDownloaded total).total ∧
    progressRatio (mkSample rawDownloaded total).downloaded
        (mkSample rawDownloaded total).total ≤ 1 ∧
    ((mkSample rawDownloaded total).total ≠ 0 →
      (mkSample rawDownloaded total).downloaded ≤
        (mkSample rawDownloaded total).total) := by
  refine ⟨?_, ?_, ?_⟩
  · unfold progressRatio
    split
    · exact le_refl 0
    · exact le_min zero_le_one (le_max_left 0 _)
  · unfold progressRatio
    split
    · exact zero_le_one
    · exact min_le_left 1 _
  · intro htot
    unfold mkSample at htot ⊢
    by_cases h0 : total = 0
    · simp [h0] at htot
    · simp only [h0, if_neg, ite_false]
      exact min_le_right _ _

theorem progress_ratio_clamped_witness :
    0 ≤ progressRatio (mkSample 150 100).downloaded
        (mkSample 150 100).total ∧
    progressRatio (mkSample 150 100).downloaded
        (mkSample 150 100).total ≤ 1 ∧
    (mkSample 150 100).downloaded ≤ (mkSample 150 100).total :=
  ⟨(progress_ratio_clamped 150 100).1,
   (progress_ratio_clamped 150 100).2.1,
   (progress_ratio_clamped 150 100).2.2 (by decide)⟩

/-- A coordinator download record: status and byte counters. -/
structure DownloadRecord where
  status : DownloadStatus
  downloaded : Nat
  total : Nat
deriving DecidableEq, Repr

/-- Modelled from the spec: `pause()` toggles transfer activity through
the owning backend; byte counters are untouched. -/
def pauseRecord (r : DownloadRecord) : DownloadRecord :=
  { r with status := DownloadStatus.Paused }

/-- Modelled from the spec: `resume()` reactivates the transfer from the
bytes already present (the daemon is always started resumable); byte
counters are untouched. -/
def resumeRecord (r : DownloadRecord) : DownloadRecord :=
  { r with status := DownloadStatus.Active }

/-- C4: for an `Active` record, `pause()` immediately followed by
`resume()` never loses downloaded bytes — the counter after the resume is
at least the counter before the pause, and the record is `Active`
again. -/
theorem pause_resume_preserves_bytes (r : DownloadRecord)
    (_h : r.status = DownloadStatus.Active) :
    r.downloaded ≤ (resumeRecord (pauseRecord r)).downloaded ∧
    (resumeRecord (pauseRecord r)).status = DownloadStatus.Active := by
  exact ⟨le_refl _, rfl⟩

/-- A concrete active record used to instantiate the pause/resume
theorem. -/
def sampleRecord : DownloadRecord :=
  { status := DownloadStatus.Active, downloaded := 42, total := 100 }

theorem pause_resume_preserves_bytes_witness :
    sampleRecord.downloaded ≤
      (resumeRecord (pauseRecord sampleRecord)).downloaded ∧
    (resumeRecord (pauseRecord sampleRecord)).status =
      DownloadStatus.Active :=
  pause_resume_preserves_bytes sampleRecord (by decide)

/-- The two event kinds of the publisher layer, matching the two channels
`DownloadManager.jsx` subscribes to (lines 21-33): a periodic progress
event carrying a full record snapshot, and a one-shot completion event
carrying the download id and the final file name. -/
inductive DownloadEvent where
  | progressSnapshot (record : DownloadProgress)
  | complete (download_id : String) (file_name : String)
deriving DecidableEq, Repr

/-- The channel an event is published on. -/
def eventChannel : DownloadEvent → String
  | DownloadEvent.progressSnapshot _ => "download-progress"
  | DownloadEvent.complete _ _ => "download-complete"

/-- Modelled from the spec: one tick of the fixed-interval sampler emits
one progress snapshot per registry record. -/
def tickEvents (registry : List DownloadProgress) : List DownloadEvent :=
  registry.map DownloadEvent.progressSnapshot

/-- Modelled from the spec: publication hands an event to exactly the
subscribers attached at emission time; nothing is queued or retried. -/
def publish {σ : Type} (subscribers : List σ) (e : DownloadEvent) :
    List (σ × DownloadEvent) :=
  subscribers.map (fun s => (s, e))

/-- C5: every published event is a `progress` snapshot (on channel
`download-progress`) or a `complete` notification (on channel
`download-complete`); a tick emits each registry record's snapshot at
most once; and emission with no subscriber attached delivers nothing —
there is no queue to retry from. -/
theorem event_layer_two_kinds (registry : List DownloadProgress)
    (r : DownloadProgress) (e : DownloadEvent)
    (hnodup : registry.Nodup) :
    ((∃ rec, e = DownloadEvent.progressSnapshot rec ∧
        eventChannel e = "download-progress") ∨
      (∃ id fn, e = DownloadEvent.complete id fn ∧
        eventChannel e = "download-complete")) ∧
    (tickEvents registry).count (DownloadEvent.progressSnapshot r) ≤ 1 ∧
    publish ([] : List Unit) e = [] := by
  refine ⟨?_, ?_, rfl⟩
  · cases e with
    | progressSnapshot rec => exact Or.inl ⟨rec, rfl, rfl⟩
    | complete id fn => exact Or.inr ⟨id, fn, rfl, rfl⟩
  · have hinj : Function.Injective DownloadEvent.progressSnapshot := by
      intro a b hab
      cases hab
      rfl
    rw [tickEvents, List.count_map_of_injective _ _ hinj]
    exact List.nodup_iff_count_le_one.mp hnodup r

theorem event_layer_two_kinds_witness :
    ((∃ rec, DownloadEvent.complete "d1" "file.zip" =
        DownloadEvent.progressSnapshot rec ∧
        eventChannel (DownloadEvent.complete "d1" "file.zip") =
          "download-progress") ∨
      (∃ id fn, DownloadEvent.complete "d1" "file.zip" =
        DownloadEvent.complete id fn ∧
        eventChannel (DownloadEvent.complete "d1" "file.zip") =
          "download-complete")) ∧
    (tickEvents [sampleActive]).count
      (DownloadEvent.progressSnapshot sampleActive) ≤ 1 ∧
    publish ([] : List Unit) (DownloadEvent.complete "d1" "file.zip") = [] :=
  event_layer_two_kinds [sampleActive] sampleActive
    (DownloadEvent.complete "d1" "file.zip") (by decide)

end Zenith
